import Mathlib

/-!
Verification of the Domain-Tool dashboard backend (`src/backend_api.py`).

The analytical engine of the backend is embedded shallowly:
* a pandas `DataFrame` row becomes a `Row` (dates are modelled as `Int` day
  numbers; `Clicks` / `Ad Impressions` are `int64` so they become `Int`;
  `Weighted Conversion` is a `float64` column modelled with exact rationals);
* `get_week_range`, `calculate_metrics`, `get_raw_totals` and the body of
  `get_dashboard_data` become Lean functions of the same names;
* pandas `sort_values(by=[k1,k2,k3], ascending=False)` is a descending
  lexicographic sort on a 3-key tuple; within exactly equal key tuples the
  order produced by pandas' unstable quicksort is unspecified, and the
  embedding fixes one order (a stable insertion sort over the grouped keys);
* Python `int(x)` on a numeric value truncates toward zero (`pyInt`);
* Python truthiness on optional ranks (`if week1_rank`, `if rank_change`)
  treats `None` and `0` as falsy (`pyIfTruthy`).
-/

namespace DomainTool

/-- One row of the loaded dataframe, after the preprocessing in `load_data`:
`Date` (day number), `Advertiser`, `Campaign`, `Clean Domain`, `Clean Keyword`,
`Impressions`, `Clicks`, `Conversions`. -/
structure Row where
  date : Int
  advertiser : String
  campaign : String
  cleanDomain : String
  cleanKeyword : String
  impressions : Int
  clicks : Int
  conversions : ℚ
deriving DecidableEq, Repr

/-- The `metric_type` request parameter, restricted to the three values the
frontend offers (`/api/filters` advertises exactly these). -/
inductive Metric
  | conversions
  | clicks
  | impressions
deriving DecidableEq, Repr

/-- The grouping column chosen from `analysis_type`:
`'Clean Keyword' if analysis_type == 'Keyword' else 'Clean Domain'`. -/
inductive GroupCol
  | domain
  | keyword
deriving DecidableEq, Repr

def groupColOf (analysisType : String) : GroupCol :=
  if analysisType == "Keyword" then GroupCol.keyword else GroupCol.domain

/-- The value a row contributes to the selected metric column. -/
def metricVal : Metric → Row → ℚ
  | Metric.conversions, r => r.conversions
  | Metric.clicks, r => (r.clicks : ℚ)
  | Metric.impressions, r => (r.impressions : ℚ)

/-- The grouping-key value of a row. -/
def groupVal : GroupCol → Row → String
  | GroupCol.domain, r => r.cleanDomain
  | GroupCol.keyword, r => r.cleanKeyword

/-- `if advertiser and advertiser != "All Advertisers"`: Python truthiness of a
string (empty string is falsy) plus the sentinel check. -/
def advActive (adv : String) : Bool :=
  adv != "" && adv != "All Advertisers"

/-- `if campaign and campaign != "All Campaigns"`. -/
def campActive (camp : String) : Bool :=
  camp != "" && camp != "All Campaigns"

/-- The date-window restriction `(base['Date'] >= week_start) & (base['Date'] <= week_end)`. -/
def filterWindow (rows : List Row) (s e : Int) : List Row :=
  rows.filter (fun r => decide (s ≤ r.date) && decide (r.date ≤ e))

/-- The advertiser filter followed by the campaign filter, exactly as both
`calculate_metrics` and `get_raw_totals` apply them. -/
def applyFilters (rows : List Row) (adv camp : String) : List Row :=
  let rows := if advActive adv then rows.filter (fun r => r.advertiser == adv) else rows
  if campActive camp then rows.filter (fun r => r.campaign == camp) else rows

/-- The full row selection shared by `calculate_metrics` and `get_raw_totals`:
window restriction, then advertiser filter, then campaign filter. -/
def filterRows (rows : List Row) (adv camp : String) (s e : Int) : List Row :=
  applyFilters (filterWindow rows s e) adv camp

/-- `get_week_range(date, week_offset)`:
`week_end = date - timedelta(days=week_offset * 7); week_start = week_end - 6`. -/
def get_week_range (date : Int) (week_offset : Nat) : Int × Int :=
  let week_end := date - 7 * (week_offset : Int)
  let week_start := week_end - 6
  (week_start, week_end)

/-- One row of the grouped frame `domain_metrics` before ranking: the grouping
key and the per-group sums of the three metric columns. -/
structure Agg where
  entity : String
  conversions : ℚ
  clicks : ℚ
  impressions : ℚ
deriving DecidableEq, Repr

/-- The `groupby(group_col).agg(sum)` row for one grouping key. -/
def mkAgg (rows : List Row) (gc : GroupCol) (k : String) : Agg :=
  let grp := rows.filter (fun r => groupVal gc r == k)
  { entity := k
    conversions := (grp.map (fun r => r.conversions)).sum
    clicks := (grp.map (fun r => (r.clicks : ℚ))).sum
    impressions := (grp.map (fun r => (r.impressions : ℚ))).sum }

def aggMetricVal : Metric → Agg → ℚ
  | Metric.conversions, a => a.conversions
  | Metric.clicks, a => a.clicks
  | Metric.impressions, a => a.impressions

/-- The `sort_by` 3-key tuple of `calculate_metrics` for each `metric_type`:
conversions → (Conversions, Clicks, Impressions), clicks → (Clicks,
Conversions, Impressions), impressions → (Impressions, Conversions, Clicks). -/
def sortKey (m : Metric) (conv clicks impr : ℚ) : ℚ × ℚ × ℚ :=
  match m with
  | Metric.conversions => (conv, clicks, impr)
  | Metric.clicks => (clicks, conv, impr)
  | Metric.impressions => (impr, conv, clicks)

def aggKey (m : Metric) (a : Agg) : ℚ × ℚ × ℚ :=
  sortKey m a.conversions a.clicks a.impressions

/-- `p` sorts no later than `q` under `sort_values(by=[...], ascending=False)`:
descending lexicographic comparison of the 3-key tuples. -/
def keyGe (p q : ℚ × ℚ × ℚ) : Prop :=
  q.1 < p.1 ∨ (q.1 = p.1 ∧ (q.2.1 < p.2.1 ∨ (q.2.1 = p.2.1 ∧ q.2.2 ≤ p.2.2)))

instance : DecidableRel keyGe := fun p q => by
  unfold keyGe; exact inferInstance

/-- The sort relation on grouped rows for a given metric. -/
def aggGe (m : Metric) (a b : Agg) : Prop :=
  keyGe (aggKey m a) (aggKey m b)

instance (m : Metric) : DecidableRel (aggGe m) := fun a b => by
  unfold aggGe; exact inferInstance

theorem keyGe_total (p q : ℚ × ℚ × ℚ) : keyGe p q ∨ keyGe q p := by
  unfold keyGe
  rcases lt_trichotomy p.1 q.1 with h1 | h1 | h1
  · exact Or.inr (Or.inl h1)
  · rcases lt_trichotomy p.2.1 q.2.1 with h2 | h2 | h2
    · exact Or.inr (Or.inr ⟨h1, Or.inl h2⟩)
    · rcases le_total p.2.2 q.2.2 with h3 | h3
      · exact Or.inr (Or.inr ⟨h1, Or.inr ⟨h2, h3⟩⟩)
      · exact Or.inl (Or.inr ⟨h1.symm, Or.inr ⟨h2.symm, h3⟩⟩)
    · exact Or.inl (Or.inr ⟨h1.symm, Or.inl h2⟩)
  · exact Or.inl (Or.inl h1)

theorem keyGe_trans (p q r : ℚ × ℚ × ℚ) (hpq : keyGe p q) (hqr : keyGe q r) : keyGe p r := by
  unfold keyGe at hpq hqr ⊢
  rcases hpq with h1 | ⟨h1, h1'⟩
  · rcases hqr with h2 | ⟨h2, _⟩
    · exact Or.inl (h2.trans h1)
    · exact Or.inl (lt_of_eq_of_lt h2 h1)
  · rcases hqr with h2 | ⟨h2, h2'⟩
    · exact Or.inl (lt_of_lt_of_eq h2 h1)
    · refine Or.inr ⟨h2.trans h1, ?_⟩
      rcases h1' with h3 | ⟨h3, h3'⟩
      · rcases h2' with h4 | ⟨h4, _⟩
        · exact Or.inl (h4.trans h3)
        · exact Or.inl (lt_of_eq_of_lt h4 h3)
      · rcases h2' with h4 | ⟨h4, h4'⟩
        · exact Or.inl (lt_of_lt_of_eq h4 h3)
        · exact Or.inr ⟨h4.trans h3, h4'.trans h3'⟩

instance (m : Metric) : IsTotal Agg (aggGe m) :=
  ⟨fun a b => keyGe_total (aggKey m a) (aggKey m b)⟩

instance (m : Metric) : IsTrans Agg (aggGe m) :=
  ⟨fun a b c => keyGe_trans (aggKey m a) (aggKey m b) (aggKey m c)⟩

/-- One row of the ranked frame returned by `calculate_metrics`: the grouped
sums plus the positional `Rank` column. -/
structure RankedEntry where
  entity : String
  conversions : ℚ
  clicks : ℚ
  impressions : ℚ
  rank : Nat
deriving DecidableEq, Repr

def entryMetricVal : Metric → RankedEntry → ℚ
  | Metric.conversions, r => r.conversions
  | Metric.clicks, r => r.clicks
  | Metric.impressions, r => r.impressions

def entryKey (m : Metric) (r : RankedEntry) : ℚ × ℚ × ℚ :=
  sortKey m r.conversions r.clicks r.impressions

/-- The sorted grouped row together with its positional rank. -/
def toEntry (a : Agg) (n : Nat) : RankedEntry :=
  { entity := a.entity
    conversions := a.conversions
    clicks := a.clicks
    impressions := a.impressions
    rank := n }

/-- `domain_metrics['Rank'] = range(1, len(domain_metrics) + 1)` starting at `n`. -/
def attachRanks : List Agg → Nat → List RankedEntry
  | [], _ => []
  | a :: l, n => toEntry a n :: attachRanks l (n + 1)

/-- `calculate_metrics`: select the window and filters, group by the grouping
column summing the three metrics, sort descending by the metric's 3-key tuple,
and assign ranks `1..K` positionally. -/
def calculate_metrics (rows : List Row) (adv camp : String) (week_start week_end : Int)
    (m : Metric) (gc : GroupCol) : List RankedEntry :=
  let week_data := filterRows rows adv camp week_start week_end
  let keys := (week_data.map (groupVal gc)).dedup
  let domain_metrics := keys.map (mkAgg week_data gc)
  attachRanks (List.insertionSort (aggGe m) domain_metrics) 1

/-- Python `int(x)` applied to a numeric value: truncation toward zero. -/
def pyInt (q : ℚ) : Int :=
  if 0 ≤ q then Int.floor q else Int.ceil q

/-- The exact (ungrouped) sum of one metric over the filtered window, the
quantity `week_data[...].sum()` computes inside `get_raw_totals`. -/
def rawTotalQ (rows : List Row) (adv camp : String) (s e : Int) (m : Metric) : ℚ :=
  ((filterRows rows adv camp s e).map (metricVal m)).sum

/-- The dict returned by `get_raw_totals`, with `int(...)` applied to each sum. -/
structure RawTotals where
  impressions : Int
  clicks : Int
  conversions : Int
deriving DecidableEq, Repr

def get_raw_totals (rows : List Row) (adv camp : String) (s e : Int) : RawTotals :=
  { impressions := pyInt (rawTotalQ rows adv camp s e Metric.impressions)
    clicks := pyInt (rawTotalQ rows adv camp s e Metric.clicks)
    conversions := pyInt (rawTotalQ rows adv camp s e Metric.conversions) }

/-- `week_raw[metric_type.lower()]`. -/
def RawTotals.select : Metric → RawTotals → Int
  | Metric.conversions, t => t.conversions
  | Metric.clicks, t => t.clicks
  | Metric.impressions, t => t.impressions

/-- The trend row selection: entity match on the grouping column, then the
advertiser and campaign filters (lines 294-298 / 331-335 / 368-372). -/
def trendFilter (rows : List Row) (gc : GroupCol) (entity : String)
    (adv camp : String) : List Row :=
  applyFilters (rows.filter (fun r => groupVal gc r == entity)) adv camp

/-- The dense daily series: group the selected rows by date, sum the metric,
and reindex onto every day of `[s, t]` with missing days filled with 0
(`reindex(all_dates, fill_value=0)`); output ascending by date. Entry `i`
holds day `s + i`. -/
def trendSeries (rows : List Row) (gc : GroupCol) (entity : String)
    (adv camp : String) (m : Metric) (s t : Int) : List ℚ :=
  (List.range (t - s + 1).toNat).map fun i : Nat =>
    (((trendFilter rows gc entity adv camp).filter
      (fun r => r.date == s + (i : Int))).map (metricVal m)).sum

/-- `set(week_metrics.head(top_n)[group_col].tolist())` as a list (the first
`top_n` entities in rank order; they are pairwise distinct). -/
def topEntities (l : List RankedEntry) (n : Nat) : List String :=
  (l.take n).map (fun x => x.entity)

/-- Python code-point comparison of strings (`charListLe` on the character
lists), the order `sorted(...)` uses. -/
def charListLe : List Char → List Char → Bool
  | [], _ => true
  | _ :: _, [] => false
  | a :: as, b :: bs => if a = b then charListLe as bs else decide (a < b)

def strLe (a b : String) : Prop :=
  charListLe a.data b.data = true

instance : DecidableRel strLe := fun a b => by
  unfold strLe; exact inferInstance

/-- Python `sorted(someSet)` where the set was built from a list: deduplicate,
then sort ascending by code point. -/
def pySortedSet (l : List String) : List String :=
  List.insertionSort strLe l.dedup

/-- `maintained_domains = week1_top.intersection(week2_top)`, emitted in
`sorted(...)` order. -/
def maintainedList (w1 w2 : List RankedEntry) (n : Nat) : List String :=
  pySortedSet ((topEntities w1 n).filter (fun e => (topEntities w2 n).contains e))

/-- `new_domains = week2_top - week1_top`, emitted in `sorted(...)` order. -/
def newList (w1 w2 : List RankedEntry) (n : Nat) : List String :=
  pySortedSet ((topEntities w2 n).filter (fun e => !(topEntities w1 n).contains e))

/-- `dropped_domains = week1_top - week2_top`, emitted in `sorted(...)` order. -/
def droppedList (w1 w2 : List RankedEntry) (n : Nat) : List String :=
  pySortedSet ((topEntities w1 n).filter (fun e => !(topEntities w2 n).contains e))

/-- One element of the `domain_data` response list. -/
structure DomainEntry where
  domain : String
  tier : String
  week1Conv : Int
  rank1 : Option Int
  week2Conv : Int
  rank2 : Option Int
  change : Option ℚ
  rankChange : Option Int
  trend : List ℚ
deriving DecidableEq, Repr

/-- Python `int(v) if v else None` on an optional integer: `None` and `0` are
falsy, any other integer passes through. -/
def pyIfTruthy : Option Int → Option Int
  | none => none
  | some k => if k = 0 then none else some k

/-- Stand-in for the row `.iloc[0]` reads when the lookup is guaranteed
non-empty; never reachable in the orchestrator (proved where used). -/
def noEntry : RankedEntry :=
  { entity := "", conversions := 0, clicks := 0, impressions := 0, rank := 0 }

/-- Tier 1 (`maintained`) record for one entity, lines 281-313: both weeks'
rows are looked up (guaranteed present), `change_pct` is computed only when
`week1_value > 0`, and `rank_change = week1_rank - week2_rank` always. -/
def mkMaintainedEntry (w1 w2 : List RankedEntry) (trRows : List Row) (gc : GroupCol)
    (adv camp : String) (m : Metric) (rs re : Int) (e : String) : DomainEntry :=
  let r1 := (w1.find? (fun x => x.entity == e)).getD noEntry
  let r2 := (w2.find? (fun x => x.entity == e)).getD noEntry
  let v1 := entryMetricVal m r1
  let v2 := entryMetricVal m r2
  let changePct : Option ℚ := if 0 < v1 then some ((v2 - v1) / v1 * 100) else none
  { domain := e
    tier := "maintained"
    week1Conv := pyInt v1
    rank1 := some (r1.rank : Int)
    week2Conv := pyInt v2
    rank2 := some (r2.rank : Int)
    change := changePct
    rankChange := some ((r1.rank : Int) - (r2.rank : Int))
    trend := trendSeries trRows gc e adv camp m rs re }

/-- Tier 2 (`new`) record for one entity, lines 316-350: the week2 row is
guaranteed present, the week1 row may be absent (`week1_value = 0`,
`week1_rank = None`); `rank_change` is computed only `if week1_rank` (truthy),
and both `rank1` and `rankChange` are emitted through `... if v else None`. -/
def mkNewEntry (w1 w2 : List RankedEntry) (trRows : List Row) (gc : GroupCol)
    (adv camp : String) (m : Metric) (rs re : Int) (e : String) : DomainEntry :=
  let r2 := (w2.find? (fun x => x.entity == e)).getD noEntry
  let v2 := entryMetricVal m r2
  let w1row := w1.find? (fun x => x.entity == e)
  let v1 : ℚ := match w1row with
    | some r => entryMetricVal m r
    | none => 0
  let rank1 : Option Int := match w1row with
    | some r => some (r.rank : Int)
    | none => none
  let changePct : Option ℚ := if 0 < v1 then some ((v2 - v1) / v1 * 100) else none
  let rankChange : Option Int := match rank1 with
    | some k => if k = 0 then none else some (k - (r2.rank : Int))
    | none => none
  { domain := e
    tier := "new"
    week1Conv := pyInt v1
    rank1 := pyIfTruthy rank1
    week2Conv := pyInt v2
    rank2 := some (r2.rank : Int)
    change := changePct
    rankChange := pyIfTruthy rankChange
    trend := trendSeries trRows gc e adv camp m rs re }

/-- Tier 3 (`dropped`) record for one entity, lines 353-387: symmetric to the
`new` tier with the weeks swapped (`week2_value = 0`, `week2_rank = None` when
the week2 row is absent; `rank_change` computed only `if week2_rank`). -/
def mkDroppedEntry (w1 w2 : List RankedEntry) (trRows : List Row) (gc : GroupCol)
    (adv camp : String) (m : Metric) (rs re : Int) (e : String) : DomainEntry :=
  let r1 := (w1.find? (fun x => x.entity == e)).getD noEntry
  let v1 := entryMetricVal m r1
  let w2row := w2.find? (fun x => x.entity == e)
  let v2 : ℚ := match w2row with
    | some r => entryMetricVal m r
    | none => 0
  let rank2 : Option Int := match w2row with
    | some r => some (r.rank : Int)
    | none => none
  let changePct : Option ℚ := if 0 < v1 then some ((v2 - v1) / v1 * 100) else none
  let rankChange : Option Int := match rank2 with
    | some k => if k = 0 then none else some ((r1.rank : Int) - k)
    | none => none
  { domain := e
    tier := "dropped"
    week1Conv := pyInt v1
    rank1 := some (r1.rank : Int)
    week2Conv := pyInt v2
    rank2 := pyIfTruthy rank2
    change := changePct
    rankChange := pyIfTruthy rankChange
    trend := trendSeries trRows gc e adv camp m rs re }

/-- The `domain_data` list: maintained, then new, then dropped, each tier in
ascending lexical order of the entity key. -/
def buildDomainData (w1 w2 : List RankedEntry) (trRows : List Row) (gc : GroupCol)
    (adv camp : String) (m : Metric) (rs re : Int) (n : Nat) : List DomainEntry :=
  (maintainedList w1 w2 n).map (mkMaintainedEntry w1 w2 trRows gc adv camp m rs re)
    ++ (newList w1 w2 n).map (mkNewEntry w1 w2 trRows gc adv camp m rs re)
    ++ (droppedList w1 w2 n).map (mkDroppedEntry w1 w2 trRows gc adv camp m rs re)

/-- One cell of `daily_sums` after both reindexes: the summed metric of the
filtered rows on day `d` for entity `item`, 0 when no such row exists, then
`int(...)`. -/
def contributionCell (rows : List Row) (gc : GroupCol) (m : Metric)
    (d : Int) (item : String) : Int :=
  pyInt (((rows.filter (fun r => groupVal gc r == item && r.date == d)).map (metricVal m)).sum)

/-- `contribution_data`: one data point per day of `[s, t]`, carrying the
day and, per union entity, the entity's truncated name (`item[:40]`) with its
summed metric for that day. -/
def contribution_data (rows : List Row) (gc : GroupCol) (m : Metric)
    (union : List String) (s t : Int) : List (Int × List (String × Int)) :=
  (List.range (t - s + 1).toNat).map fun i : Nat =>
    (s + (i : Int), union.map fun item => (item.take 40, contributionCell rows gc m (s + (i : Int)) item))

/-- One week's pie data: the top-N entities (name truncated to 40 chars,
`int(value)`), plus an `Others` bucket summing everything beyond top-N,
included only when `len(week_metrics) > top_n` and the sum is positive. -/
def pieEntries (l : List RankedEntry) (m : Metric) (n : Nat) : List (String × Int) :=
  let base := (l.take n).map (fun r => (r.entity.take 40, pyInt (entryMetricVal m r)))
  if n < l.length then
    let others := ((l.drop n).map (entryMetricVal m)).sum
    if 0 < others then base ++ [("Others", pyInt others)] else base
  else base

/-- The response object of `POST /api/dashboard-data` (date strings kept as
day numbers). -/
structure Dashboard where
  week1Total : Int
  week2Total : Int
  domainData : List DomainEntry
  contributionData : List (Int × List (String × Int))
  pieDataWeek1 : List (String × Int)
  pieDataWeek2 : List (String × Int)
  week1Range : Int × Int
  week2Range : Int × Int
deriving DecidableEq, Repr

/-- The engine body of `get_dashboard_data`, after the request-layer defaults
resolved `topN`, the filters, the anchor date, the metric and the analysis
type. `week0_metrics` is computed by the source but never used in the
response, so it is omitted; `df_range` is the 4-week working slice
`[week3_start, week2_end]`. -/
def get_dashboard_data (rows : List Row) (topN : Nat) (adv camp : String)
    (selectedDate : Int) (m : Metric) (analysisType : String) : Dashboard :=
  let gc := groupColOf analysisType
  let week1 := get_week_range selectedDate 1
  let week2 := get_week_range selectedDate 0
  let week3 := get_week_range selectedDate 3
  let df_range := filterWindow rows week3.1 week2.2
  let week1_raw := get_raw_totals df_range adv camp week1.1 week1.2
  let week2_raw := get_raw_totals df_range adv camp week2.1 week2.2
  let week1_metrics := calculate_metrics df_range adv camp week1.1 week1.2 m gc
  let week2_metrics := calculate_metrics df_range adv camp week2.1 week2.2 m gc
  let all_union_items := pySortedSet (maintainedList week1_metrics week2_metrics topN
    ++ newList week1_metrics week2_metrics topN ++ droppedList week1_metrics week2_metrics topN)
  let contrib_df := applyFilters df_range adv camp
  { week1Total := week1_raw.select m
    week2Total := week2_raw.select m
    domainData := buildDomainData week1_metrics week2_metrics df_range gc adv camp m
      week1.1 week2.2 topN
    contributionData := contribution_data contrib_df gc m all_union_items week1.1 week2.2
    pieDataWeek1 := pieEntries week1_metrics m topN
    pieDataWeek2 := pieEntries week2_metrics m topN
    week1Range := week1
    week2Range := week2 }

/-- One raw CSV record as `load_data` sees it after column normalisation: the
`Day` cell abstracted to its parse result (`none` when `pd.to_datetime(...,
errors='coerce')` yields `NaT`), the `int64` columns, and `Weighted
Conversion` (`none` for a missing cell, filled by `fillna(0)`). -/
structure RawRecord where
  day : Option Int
  advertiser : String
  campaign : String
  domain : String
  adImpressions : Int
  clicks : Int
  weightedConversion : Option ℚ
deriving DecidableEq, Repr

/-- `df['Domain'].str.replace(r'^www\.', '', regex=True, case=False)`. -/
def stripWww (s : String) : String :=
  if (s.take 4).toLower == "www." then s.drop 4 else s

/-- The preprocessing of `load_data`: drop rows whose date failed to parse,
normalise the domain, set `Impressions`/`Conversions`, and set
`df['Clean Keyword'] = ''` on every row (the file has no keyword column). -/
def load_data (raw : List RawRecord) : List Row :=
  (raw.filter (fun r => r.day.isSome)).map fun r =>
    { date := r.day.getD 0
      advertiser := r.advertiser
      campaign := r.campaign
      cleanDomain := stripWww r.domain
      cleanKeyword := ""
      impressions := r.adImpressions
      clicks := r.clicks
      conversions := r.weightedConversion.getD 0 }

/-! ### Helper lemmas about rank attachment -/

theorem map_entity_attachRanks (l : List Agg) (n : Nat) :
    (attachRanks l n).map (fun x => x.entity) = l.map Agg.entity := by
  induction l generalizing n with
  | nil => rfl
  | cons a l ih => simp [attachRanks, toEntry, ih]

theorem length_attachRanks (l : List Agg) (n : Nat) :
    (attachRanks l n).length = l.length := by
  induction l generalizing n with
  | nil => rfl
  | cons a l ih => simp [attachRanks, ih]

theorem map_rank_attachRanks (l : List Agg) (n : Nat) :
    (attachRanks l n).map (fun x => x.rank) = List.range' n l.length := by
  induction l generalizing n with
  | nil => rfl
  | cons a l ih => simp [attachRanks, toEntry, ih, List.range'_succ]

theorem mem_attachRanks {x : RankedEntry} :
    ∀ {l : List Agg} {n : Nat}, x ∈ attachRanks l n → ∃ a ∈ l, ∃ j, x = toEntry a j := by
  intro l
  induction l with
  | nil => intro n h; simp [attachRanks] at h
  | cons a l ih =>
    intro n h
    rcases List.mem_cons.1 h with h | h
    · exact ⟨a, List.mem_cons_self a l, n, h⟩
    · rcases ih h with ⟨b, hb, j, hj⟩
      exact ⟨b, List.mem_cons_of_mem a hb, j, hj⟩

theorem rank_ge_of_mem_attachRanks {x : RankedEntry} :
    ∀ {l : List Agg} {n : Nat}, x ∈ attachRanks l n → n ≤ x.rank := by
  intro l
  induction l with
  | nil => intro n h; simp [attachRanks] at h
  | cons a l ih =>
    intro n h
    rcases List.mem_cons.1 h with h | h
    · subst h; exact le_refl n
    · exact Nat.le_of_succ_le (ih h)

/-- The first entry whose entity matches `e` sits in the first `k` positions
of the ranked list exactly when its positional rank is below `n + k`. -/
theorem find?_attachRanks_top_iff (e : String) :
    ∀ (l : List Agg) (n k : Nat) (r : RankedEntry),
      (attachRanks l n).find? (fun x => x.entity == e) = some r →
      (e ∈ ((attachRanks l n).take k).map (fun x => x.entity) ↔ r.rank < n + k) := by
  intro l
  induction l with
  | nil => intro n k r h; simp [attachRanks] at h
  | cons a l ih =>
    intro n k r h
    rw [attachRanks] at h ⊢
    by_cases ha : ((toEntry a n).entity == e) = true
    · rw [List.find?_cons_of_pos (p := fun x : RankedEntry => x.entity == e) _ ha] at h
      cases h
      cases k with
      | zero => simp [toEntry]
      | succ k =>
        simp only [List.take_succ_cons, List.map_cons, List.mem_cons]
        constructor
        · intro _
          simp only [toEntry]
          omega
        · intro _
          exact Or.inl (beq_iff_eq.1 ha).symm
    · rw [List.find?_cons_of_neg (p := fun x : RankedEntry => x.entity == e) _ ha] at h
      have hrank := rank_ge_of_mem_attachRanks (List.mem_of_find?_eq_some h)
      cases k with
      | zero =>
        simp only [List.take_zero, List.map_nil, List.not_mem_nil, false_iff]
        omega
      | succ k =>
        have hiff := ih (n + 1) k r h
        simp only [List.take_succ_cons, List.map_cons, List.mem_cons]
        constructor
        · intro hmem
          rcases hmem with hmem | hmem
          · exact absurd (beq_iff_eq.2 hmem.symm) ha
          · have := hiff.1 hmem
            omega
        · intro hlt
          exact Or.inr (hiff.2 (by omega))

/-! ### Helper lemmas about `calculate_metrics` -/

theorem calculate_metrics_def (rows : List Row) (adv camp : String) (s e : Int)
    (m : Metric) (gc : GroupCol) :
    calculate_metrics rows adv camp s e m gc =
      attachRanks (List.insertionSort (aggGe m)
        (((filterRows rows adv camp s e).map (groupVal gc)).dedup.map
          (mkAgg (filterRows rows adv camp s e) gc))) 1 := rfl

theorem nodup_entity_calculate_metrics (rows : List Row) (adv camp : String) (s e : Int)
    (m : Metric) (gc : GroupCol) :
    ((calculate_metrics rows adv camp s e m gc).map (fun x => x.entity)).Nodup := by
  rw [calculate_metrics_def, map_entity_attachRanks]
  have hperm :
      List.Perm
        ((List.insertionSort (aggGe m)
          (((filterRows rows adv camp s e).map (groupVal gc)).dedup.map
            (mkAgg (filterRows rows adv camp s e) gc))).map Agg.entity)
        ((((filterRows rows adv camp s e).map (groupVal gc)).dedup.map
            (mkAgg (filterRows rows adv camp s e) gc)).map Agg.entity) :=
    (List.perm_insertionSort _ _).map _
  refine hperm.nodup_iff.2 ?_
  rw [List.map_map]
  have hid : (Agg.entity ∘ mkAgg (filterRows rows adv camp s e) gc) = id :=
    funext fun k => rfl
  rw [hid, List.map_id]
  exact List.nodup_dedup _

theorem mem_calculate_metrics {rows : List Row} {adv camp : String} {s e : Int}
    {m : Metric} {gc : GroupCol} {x : RankedEntry}
    (h : x ∈ calculate_metrics rows adv camp s e m gc) :
    ∃ k j, x = toEntry (mkAgg (filterRows rows adv camp s e) gc k) j := by
  rw [calculate_metrics_def] at h
  rcases mem_attachRanks h with ⟨a, ha, j, hj⟩
  rw [List.mem_insertionSort] at ha
  rcases List.mem_map.1 ha with ⟨k, _, hk⟩
  subst hk hj
  exact ⟨k, j, rfl⟩

theorem rank_pos_calculate_metrics {rows : List Row} {adv camp : String} {s e : Int}
    {m : Metric} {gc : GroupCol} {x : RankedEntry}
    (h : x ∈ calculate_metrics rows adv camp s e m gc) : 1 ≤ x.rank :=
  rank_ge_of_mem_attachRanks (by rwa [calculate_metrics_def] at h)

theorem find?_isSome_of_mem_topEntities {L : List RankedEntry} {n : Nat} {e : String}
    (h : e ∈ topEntities L n) : ∃ r, L.find? (fun x => x.entity == e) = some r := by
  rcases List.mem_map.1 h with ⟨x, hx, hxe⟩
  have hxL : x ∈ L := List.mem_of_mem_take hx
  have hp : (x.entity == e) = true := by rw [hxe, beq_self_eq_true]
  have hsome : (L.find? (fun x => x.entity == e)).isSome :=
    List.find?_isSome.2 ⟨x, hxL, hp⟩
  exact Option.isSome_iff_exists.1 hsome

/-! ### Helper lemmas about the classification lists -/

theorem mem_pySortedSet {x : String} {l : List String} : x ∈ pySortedSet l ↔ x ∈ l := by
  rw [pySortedSet, List.mem_insertionSort, List.mem_dedup]

theorem nodup_pySortedSet (l : List String) : (pySortedSet l).Nodup :=
  (List.perm_insertionSort strLe l.dedup).nodup_iff.2 (List.nodup_dedup l)

theorem mem_maintainedList {w1 w2 : List RankedEntry} {n : Nat} {x : String} :
    x ∈ maintainedList w1 w2 n ↔ x ∈ topEntities w1 n ∧ x ∈ topEntities w2 n := by
  rw [maintainedList, mem_pySortedSet, List.mem_filter]
  simp

theorem mem_newList {w1 w2 : List RankedEntry} {n : Nat} {x : String} :
    x ∈ newList w1 w2 n ↔ x ∈ topEntities w2 n ∧ x ∉ topEntities w1 n := by
  rw [newList, mem_pySortedSet, List.mem_filter]
  simp

theorem mem_droppedList {w1 w2 : List RankedEntry} {n : Nat} {x : String} :
    x ∈ droppedList w1 w2 n ↔ x ∈ topEntities w1 n ∧ x ∉ topEntities w2 n := by
  rw [droppedList, mem_pySortedSet, List.mem_filter]
  simp

/-! ### Helper lemmas about sums -/

theorem sum_map_add_q {α : Type} (l : List α) (f g : α → ℚ) :
    (l.map (fun x => f x + g x)).sum = (l.map f).sum + (l.map g).sum := by
  induction l with
  | nil => simp
  | cons a l ih => simp [ih]; ring

theorem sum_map_single {κ : Type} [BEq κ] [LawfulBEq κ] (c : ℚ) (a : κ) :
    ∀ (keys : List κ), keys.Nodup → a ∈ keys →
      (keys.map (fun k => if a == k then c else 0)).sum = c := by
  intro keys
  induction keys with
  | nil => intro _ h; simp at h
  | cons k ks ih =>
    intro hnd hmem
    have hnd' := List.nodup_cons.1 hnd
    by_cases hak : a = k
    · subst hak
      have hz : (ks.map (fun k2 => if a == k2 then c else 0)).sum = 0 := by
        refine List.sum_eq_zero ?_
        intro y hy
        rcases List.mem_map.1 hy with ⟨k', hk', hk'y⟩
        have hne : ¬(a == k') = true := by
          intro hbeq
          refine hnd'.1 ?_
          rw [beq_iff_eq.1 hbeq]
          exact hk'
        rw [if_neg hne] at hk'y
        exact hk'y.symm
      have hhead : (if a == a then c else 0) = c := by simp
      rw [List.map_cons, List.sum_cons, hhead, hz, add_zero]
    · have hmem' : a ∈ ks := by
        rcases List.mem_cons.1 hmem with h | h
        · exact absurd h hak
        · exact h
      have hne : ¬(a == k) = true := fun hbeq => hak (beq_iff_eq.1 hbeq)
      have hhead : (if a == k then c else 0) = 0 := by rw [if_neg hne]
      rw [List.map_cons, List.sum_cons, hhead, zero_add]
      exact ih hnd'.2 hmem'

theorem sum_map_filter_partition {α κ : Type} [BEq κ] [LawfulBEq κ]
    (g : α → κ) (f : α → ℚ) :
    ∀ (xs : List α) (keys : List κ), keys.Nodup → (∀ x ∈ xs, g x ∈ keys) →
      (keys.map (fun k => ((xs.filter (fun x => g x == k)).map f).sum)).sum
        = (xs.map f).sum := by
  intro xs
  induction xs with
  | nil =>
    intro keys _ _
    simp
  | cons x xs ih =>
    intro keys hnd hcov
    have hx : g x ∈ keys := hcov x (List.mem_cons_self x xs)
    have hrest : ∀ y ∈ xs, g y ∈ keys := fun y hy => hcov y (List.mem_cons_of_mem x hy)
    have hmap :
        keys.map (fun k => (((x :: xs).filter (fun z => g z == k)).map f).sum)
          = keys.map (fun k =>
              (if g x == k then f x else 0) + ((xs.filter (fun z => g z == k)).map f).sum) := by
      have hfun : (fun k => (((x :: xs).filter (fun z => g z == k)).map f).sum)
          = fun k => (if g x == k then f x else 0)
              + ((xs.filter (fun z => g z == k)).map f).sum := by
        funext k
        by_cases h : (g x == k) = true
        · simp [List.filter_cons, h]
        · simp [List.filter_cons, h]
      rw [hfun]
    rw [hmap, sum_map_add_q, sum_map_single (f x) (g x) keys hnd hx, ih keys hnd hrest]
    simp

theorem pairwise_attachRanks {R : Agg → Agg → Prop} {S : RankedEntry → RankedEntry → Prop}
    (hRS : ∀ (a b : Agg) (i j : Nat), R a b → S (toEntry a i) (toEntry b j)) :
    ∀ (l : List Agg) (n : Nat), l.Pairwise R → (attachRanks l n).Pairwise S := by
  intro l
  induction l with
  | nil => intro n _; exact List.Pairwise.nil
  | cons a l ih =>
    intro n hp
    rcases List.pairwise_cons.1 hp with ⟨hhead, htail⟩
    rw [attachRanks]
    refine List.pairwise_cons.2 ⟨?_, ih (n + 1) htail⟩
    intro y hy
    rcases mem_attachRanks hy with ⟨b, hb, j, rfl⟩
    exact hRS a b n j (hhead b hb)

theorem entryMetricVal_toEntry (m : Metric) (a : Agg) (n : Nat) :
    entryMetricVal m (toEntry a n) = aggMetricVal m a := by
  cases m <;> rfl

theorem sum_entry_metric_attachRanks (m : Metric) :
    ∀ (l : List Agg) (n : Nat),
      ((attachRanks l n).map (entryMetricVal m)).sum = (l.map (aggMetricVal m)).sum := by
  intro l
  induction l with
  | nil => intro n; rfl
  | cons a l ih =>
    intro n
    rw [attachRanks, List.map_cons, List.sum_cons, List.map_cons, List.sum_cons,
      entryMetricVal_toEntry, ih (n + 1)]

/-! ### Claim theorems -/

/-- C7: `get_week_range` returns `(start, end)` with `end = D − 7·offset` and
`start = end − 6`, so `end − start` is exactly 6 days, for every anchor date
and every offset ≥ 0; it is a pure total function (a Lean `def` with no error
path). -/
theorem week_range_arithmetic (d : Int) (offset : Nat) :
    (get_week_range d offset).2 = d - 7 * (offset : Int) ∧
    (get_week_range d offset).1 = (get_week_range d offset).2 - 6 ∧
    (get_week_range d offset).2 - (get_week_range d offset).1 = 6 := by
  refine ⟨rfl, rfl, ?_⟩
  simp only [get_week_range]
  omega

/-- C4: the output of `calculate_metrics` is sorted descending by the 3-key
tuple determined by the metric (conversions→(conversions,clicks,impressions),
clicks→(clicks,conversions,impressions),
impressions→(impressions,conversions,clicks)): every earlier entry's key tuple
is lexicographically ≥ every later entry's. -/
theorem metric_sort_descending (rows : List Row) (adv camp : String) (s e : Int)
    (m : Metric) (gc : GroupCol) :
    (calculate_metrics rows adv camp s e m gc).Pairwise
      (fun a b => keyGe (entryKey m a) (entryKey m b)) := by
  rw [calculate_metrics_def]
  refine pairwise_attachRanks (R := aggGe m) ?_ _ 1 ?_
  · intro a b i j hab
    exact hab
  · exact List.sorted_insertionSort (aggGe m) _

/-- C5: the ranks of `calculate_metrics` are exactly `1, 2, ..., K` in output
order (no duplicates, no gaps), where `K` is the number of distinct grouping
keys among the filtered rows of the window. -/
theorem ranks_dense_one_to_K (rows : List Row) (adv camp : String) (s e : Int)
    (m : Metric) (gc : GroupCol) :
    ((calculate_metrics rows adv camp s e m gc).map (fun x => x.rank))
      = List.range' 1 (((filterRows rows adv camp s e).map (groupVal gc)).dedup.length) := by
  rw [calculate_metrics_def, map_rank_attachRanks]
  congr 1
  rw [(List.perm_insertionSort (aggGe m) _).length_eq, List.length_map]

/-- C9: the ungrouped raw total of the selected metric (the sum
`get_raw_totals` takes over the filtered window) equals the sum of the
per-entity totals over all entries of the grouped ranking produced with the
same filters and window, under exact arithmetic. -/
theorem raw_total_eq_grouped_sum (rows : List Row) (adv camp : String) (s e : Int)
    (m : Metric) (gc : GroupCol) :
    rawTotalQ rows adv camp s e m
      = ((calculate_metrics rows adv camp s e m gc).map (entryMetricVal m)).sum := by
  rw [calculate_metrics_def, sum_entry_metric_attachRanks]
  have hperm :
      List.Perm
        ((List.insertionSort (aggGe m)
          (((filterRows rows adv camp s e).map (groupVal gc)).dedup.map
            (mkAgg (filterRows rows adv camp s e) gc))).map (aggMetricVal m))
        ((((filterRows rows adv camp s e).map (groupVal gc)).dedup.map
            (mkAgg (filterRows rows adv camp s e) gc)).map (aggMetricVal m)) :=
    (List.perm_insertionSort _ _).map _
  rw [hperm.sum_eq, List.map_map]
  have hcomp :
      (aggMetricVal m ∘ mkAgg (filterRows rows adv camp s e) gc)
        = fun k => (((filterRows rows adv camp s e).filter
            (fun r => groupVal gc r == k)).map (metricVal m)).sum := by
    funext k
    cases m <;> rfl
  rw [hcomp]
  exact (sum_map_filter_partition (groupVal gc) (metricVal m)
    (filterRows rows adv camp s e)
    (((filterRows rows adv camp s e).map (groupVal gc)).dedup)
    (List.nodup_dedup _)
    (fun x hx => List.mem_dedup.2 (List.mem_map_of_mem (groupVal gc) hx))).symm

theorem map_domain_buildDomainData (w1 w2 : List RankedEntry) (trRows : List Row)
    (gc : GroupCol) (adv camp : String) (m : Metric) (rs re : Int) (n : Nat) :
    (buildDomainData w1 w2 trRows gc adv camp m rs re n).map (fun p => p.domain)
      = maintainedList w1 w2 n ++ (newList w1 w2 n ++ droppedList w1 w2 n) := by
  unfold buildDomainData
  rw [List.append_assoc, List.map_append, List.map_append,
    List.map_map, List.map_map, List.map_map]
  have h1 : ((fun p : DomainEntry => p.domain) ∘ mkMaintainedEntry w1 w2 trRows gc adv camp m rs re)
      = id := funext fun x => rfl
  have h2 : ((fun p : DomainEntry => p.domain) ∘ mkNewEntry w1 w2 trRows gc adv camp m rs re)
      = id := funext fun x => rfl
  have h3 : ((fun p : DomainEntry => p.domain) ∘ mkDroppedEntry w1 w2 trRows gc adv camp m rs re)
      = id := funext fun x => rfl
  rw [h1, h2, h3, List.map_id, List.map_id, List.map_id]

theorem disjoint_maintained_new (w1 w2 : List RankedEntry) (n : Nat) :
    List.Disjoint (maintainedList w1 w2 n) (newList w1 w2 n) := by
  intro x hx hy
  exact (mem_newList.1 hy).2 (mem_maintainedList.1 hx).1

theorem disjoint_maintained_dropped (w1 w2 : List RankedEntry) (n : Nat) :
    List.Disjoint (maintainedList w1 w2 n) (droppedList w1 w2 n) := by
  intro x hx hy
  exact (mem_droppedList.1 hy).2 (mem_maintainedList.1 hx).2

theorem disjoint_new_dropped (w1 w2 : List RankedEntry) (n : Nat) :
    List.Disjoint (newList w1 w2 n) (droppedList w1 w2 n) := by
  intro x hx hy
  exact (mem_newList.1 hx).2 (mem_droppedList.1 hy).1

/-- C2: the three tiers partition the union of the two top-N entity sets:
membership in `maintained ∪ new ∪ dropped` is exactly membership in
`week1Top ∪ week2Top`, the three tier lists are pairwise disjoint
(empty `List.inter`), and the emitted `domain_data` list names every entity
of the union exactly once (its domains are `Nodup`) and no other entity. -/
theorem tiers_partition_top_union (w1 w2 : List RankedEntry) (n : Nat)
    (trRows : List Row) (gc : GroupCol) (adv camp : String) (m : Metric) (rs re : Int) :
    (∀ x, (x ∈ maintainedList w1 w2 n ∨ x ∈ newList w1 w2 n ∨ x ∈ droppedList w1 w2 n)
        ↔ (x ∈ topEntities w1 n ∨ x ∈ topEntities w2 n)) ∧
    maintainedList w1 w2 n ∩ newList w1 w2 n = [] ∧
    maintainedList w1 w2 n ∩ droppedList w1 w2 n = [] ∧
    newList w1 w2 n ∩ droppedList w1 w2 n = [] ∧
    ((buildDomainData w1 w2 trRows gc adv camp m rs re n).map (fun p => p.domain)).Nodup ∧
    (∀ x, x ∈ (buildDomainData w1 w2 trRows gc adv camp m rs re n).map (fun p => p.domain)
        ↔ (x ∈ topEntities w1 n ∨ x ∈ topEntities w2 n)) := by
  have hunion : ∀ x,
      (x ∈ maintainedList w1 w2 n ∨ x ∈ newList w1 w2 n ∨ x ∈ droppedList w1 w2 n)
        ↔ (x ∈ topEntities w1 n ∨ x ∈ topEntities w2 n) := by
    intro x
    rw [mem_maintainedList, mem_newList, mem_droppedList]
    tauto
  refine ⟨hunion, ?_, ?_, ?_, ?_, ?_⟩
  · rw [List.inter_eq_nil_iff_disjoint]
    exact disjoint_maintained_new w1 w2 n
  · rw [List.inter_eq_nil_iff_disjoint]
    exact disjoint_maintained_dropped w1 w2 n
  · rw [List.inter_eq_nil_iff_disjoint]
    exact disjoint_new_dropped w1 w2 n
  · rw [map_domain_buildDomainData]
    rw [List.nodup_append, List.nodup_append]
    refine ⟨nodup_pySortedSet _, ⟨nodup_pySortedSet _, nodup_pySortedSet _,
      disjoint_new_dropped w1 w2 n⟩, ?_⟩
    intro x hx
    rw [List.mem_append]
    rintro (hy | hy)
    · exact disjoint_maintained_new w1 w2 n hx hy
    · exact disjoint_maintained_dropped w1 w2 n hx hy
  · intro x
    rw [map_domain_buildDomainData, List.mem_append, List.mem_append]
    rw [← hunion x]

/-- Membership of an entity in the top-`k` slice of a ranking, read off the
positional rank of the entry `find?` locates. -/
theorem mem_topEntities_iff_rank_le {rows : List Row} {adv camp : String} {s e : Int}
    {m : Metric} {gc : GroupCol} {x : String} {r : RankedEntry} {k : Nat}
    (h : (calculate_metrics rows adv camp s e m gc).find? (fun y => y.entity == x) = some r) :
    (x ∈ topEntities (calculate_metrics rows adv camp s e m gc) k ↔ r.rank ≤ k) := by
  have hiff := find?_attachRanks_top_iff x
    (List.insertionSort (aggGe m)
      (((filterRows rows adv camp s e).map (groupVal gc)).dedup.map
        (mkAgg (filterRows rows adv camp s e) gc))) 1 k r
    (by rwa [calculate_metrics_def] at h)
  rw [topEntities, calculate_metrics_def]
  rw [hiff]
  omega

/-- C1: for every entity of the `new` tier, `rankChange` is `rank1 − rank2`
when the week1 aggregate row of the entity exists and null exactly when it is
absent; and, independently, for every entity of the `dropped` tier,
symmetrically, it is `rank1 − rank2` when the week2 row exists and null
exactly when it is absent. Both equalities are stated through `Option.map`
over the counterpart `find?`: a missing row maps to `none`, a present row to
its rank difference. The two universals are separate conjuncts, so each
applies even when the other tier is empty. -/
theorem new_dropped_rank_change (rows : List Row) (adv camp : String)
    (w1s w1e w2s w2e : Int) (m : Metric) (gc : GroupCol)
    (trRows : List Row) (rs re : Int) (n : Nat) :
    (∀ eN ∈ newList (calculate_metrics rows adv camp w1s w1e m gc)
        (calculate_metrics rows adv camp w2s w2e m gc) n,
      (mkNewEntry (calculate_metrics rows adv camp w1s w1e m gc)
          (calculate_metrics rows adv camp w2s w2e m gc)
          trRows gc adv camp m rs re eN).rankChange
        = ((calculate_metrics rows adv camp w1s w1e m gc).find?
            (fun x => x.entity == eN)).map
            (fun r1 => (r1.rank : Int) -
              ((((calculate_metrics rows adv camp w2s w2e m gc).find?
                (fun x => x.entity == eN)).getD noEntry).rank : Int))) ∧
    (∀ eD ∈ droppedList (calculate_metrics rows adv camp w1s w1e m gc)
        (calculate_metrics rows adv camp w2s w2e m gc) n,
      (mkDroppedEntry (calculate_metrics rows adv camp w1s w1e m gc)
          (calculate_metrics rows adv camp w2s w2e m gc)
          trRows gc adv camp m rs re eD).rankChange
        = ((calculate_metrics rows adv camp w2s w2e m gc).find?
            (fun x => x.entity == eD)).map
            (fun r2 => ((((calculate_metrics rows adv camp w1s w1e m gc).find?
                (fun x => x.entity == eD)).getD noEntry).rank : Int) - (r2.rank : Int))) := by
  constructor
  · intro eN heN
    rcases mem_newList.1 heN with ⟨h2top, h1not⟩
    rcases find?_isSome_of_mem_topEntities h2top with ⟨r2, hr2⟩
    have hr2le : r2.rank ≤ n := (mem_topEntities_iff_rank_le hr2).1 h2top
    rcases hfind : (calculate_metrics rows adv camp w1s w1e m gc).find?
        (fun x => x.entity == eN) with _ | r1
    · simp [mkNewEntry, hfind, pyIfTruthy]
    · have hr1gt : n < r1.rank := by
        by_contra hle
        exact h1not ((mem_topEntities_iff_rank_le hfind).2 (by omega))
      have hr1pos : 1 ≤ r1.rank :=
        rank_pos_calculate_metrics (List.mem_of_find?_eq_some hfind)
      have hne0 : ¬((r1.rank : Int) = 0) := by omega
      have hdiff : ¬((r1.rank : Int) - (r2.rank : Int) = 0) := by omega
      simp only [mkNewEntry, hfind, hr2, Option.getD_some, Option.map_some]
      rw [if_neg hne0]
      simp only [pyIfTruthy]
      rw [if_neg hdiff]
      rfl
  · intro eD heD
    rcases mem_droppedList.1 heD with ⟨h1top, h2not⟩
    rcases find?_isSome_of_mem_topEntities h1top with ⟨r1, hr1⟩
    have hr1le : r1.rank ≤ n := (mem_topEntities_iff_rank_le hr1).1 h1top
    rcases hfind : (calculate_metrics rows adv camp w2s w2e m gc).find?
        (fun x => x.entity == eD) with _ | r2
    · simp [mkDroppedEntry, hfind, pyIfTruthy]
    · have hr2gt : n < r2.rank := by
        by_contra hle
        exact h2not ((mem_topEntities_iff_rank_le hfind).2 (by omega))
      have hr2pos : 1 ≤ r2.rank :=
        rank_pos_calculate_metrics (List.mem_of_find?_eq_some hfind)
      have hne0 : ¬((r2.rank : Int) = 0) := by omega
      have hdiff : ¬((r1.rank : Int) - (r2.rank : Int) = 0) := by omega
      simp only [mkDroppedEntry, hfind, hr1, Option.getD_some, Option.map_some]
      rw [if_neg hne0]
      simp only [pyIfTruthy]
      rw [if_neg hdiff]
      rfl

/-- Every entry of `calculate_metrics` carries, in its metric column, the sum
of that metric over its group's filtered rows. -/
theorem entry_group_sum {rows : List Row} {adv camp : String} {s e : Int}
    {m : Metric} {gc : GroupCol} {x : RankedEntry}
    (h : x ∈ calculate_metrics rows adv camp s e m gc) :
    entryMetricVal m x = (((filterRows rows adv camp s e).filter
      (fun r => groupVal gc r == x.entity)).map (metricVal m)).sum := by
  rcases mem_calculate_metrics h with ⟨k, j, rfl⟩
  cases m <;> rfl

theorem entry_metric_nonneg {rows : List Row} {adv camp : String} {s e : Int}
    {m : Metric} {gc : GroupCol} {x : RankedEntry}
    (hnn : ∀ r ∈ filterRows rows adv camp s e, 0 ≤ metricVal m r)
    (h : x ∈ calculate_metrics rows adv camp s e m gc) :
    0 ≤ entryMetricVal m x := by
  rw [entry_group_sum h]
  refine List.sum_nonneg ?_
  intro q hq
  rcases List.mem_map.1 hq with ⟨r, hr, rfl⟩
  exact hnn r (List.mem_of_mem_filter hr)

/-- C6: for an entity of the `maintained` tier (both weeks' rows present, the
metric column non-negative), the emitted `change` is null exactly when the
entity's week1 value is 0, and otherwise equals `(v2 − v1) / v1 × 100`. -/
theorem maintained_change_null_iff_zero (rows : List Row) (adv camp : String)
    (w1s w1e w2s w2e : Int) (m : Metric) (gc : GroupCol)
    (trRows : List Row) (rs re : Int) (n : Nat) (e : String)
    (hnn : ∀ r ∈ filterRows rows adv camp w1s w1e, 0 ≤ metricVal m r)
    (he : e ∈ maintainedList (calculate_metrics rows adv camp w1s w1e m gc)
      (calculate_metrics rows adv camp w2s w2e m gc) n) :
    ((mkMaintainedEntry (calculate_metrics rows adv camp w1s w1e m gc)
        (calculate_metrics rows adv camp w2s w2e m gc)
        trRows gc adv camp m rs re e).change = none
      ↔ entryMetricVal m (((calculate_metrics rows adv camp w1s w1e m gc).find?
          (fun x => x.entity == e)).getD noEntry) = 0) ∧
    (entryMetricVal m (((calculate_metrics rows adv camp w1s w1e m gc).find?
          (fun x => x.entity == e)).getD noEntry) ≠ 0 →
      (mkMaintainedEntry (calculate_metrics rows adv camp w1s w1e m gc)
          (calculate_metrics rows adv camp w2s w2e m gc)
          trRows gc adv camp m rs re e).change
        = some ((entryMetricVal m (((calculate_metrics rows adv camp w2s w2e m gc).find?
              (fun x => x.entity == e)).getD noEntry)
            - entryMetricVal m (((calculate_metrics rows adv camp w1s w1e m gc).find?
              (fun x => x.entity == e)).getD noEntry))
            / entryMetricVal m (((calculate_metrics rows adv camp w1s w1e m gc).find?
              (fun x => x.entity == e)).getD noEntry) * 100)) := by
  rcases mem_maintainedList.1 he with ⟨h1top, _⟩
  rcases find?_isSome_of_mem_topEntities h1top with ⟨r1, hr1⟩
  have hmem : r1 ∈ calculate_metrics rows adv camp w1s w1e m gc :=
    List.mem_of_find?_eq_some hr1
  have hv1nn : 0 ≤ entryMetricVal m r1 := entry_metric_nonneg hnn hmem
  rw [hr1]
  simp only [Option.getD_some]
  constructor
  · simp only [mkMaintainedEntry, hr1, Option.getD_some]
    by_cases hpos : 0 < entryMetricVal m r1
    · rw [if_pos hpos]
      constructor
      · intro hcontra
        simp at hcontra
      · intro h0
        rw [h0] at hpos
        exact absurd hpos (lt_irrefl 0)
    · rw [if_neg hpos]
      constructor
      · intro _
        exact le_antisymm (not_lt.1 hpos) hv1nn
      · intro _
        rfl
  · intro hne
    have hpos : 0 < entryMetricVal m r1 := lt_of_le_of_ne hv1nn (Ne.symm hne)
    simp only [mkMaintainedEntry, hr1, Option.getD_some]
    rw [if_pos hpos]

/-- C3: for every entity and filter choice, the trend series has exactly
`(rangeEnd − rangeStart).days + 1` entries; entry `i` (day `rangeStart + i`,
so the series ascends the calendar) is the sum of the selected metric over the
entity's filtered rows on that day (0 when no such row exists); and the sum of
the series equals the entity's filtered grouped sum over the whole range. -/
theorem trend_series_dense (rows : List Row) (gc : GroupCol) (entity : String)
    (adv camp : String) (m : Metric) (s t : Int) (h : s ≤ t) :
    (trendSeries rows gc entity adv camp m s t).length = (t - s).toNat + 1 ∧
    (∀ i : Nat, ∀ hi : i < (trendSeries rows gc entity adv camp m s t).length,
      (trendSeries rows gc entity adv camp m s t).get ⟨i, hi⟩
        = (((trendFilter rows gc entity adv camp).filter
            (fun r => r.date == s + (i : Int))).map (metricVal m)).sum) ∧
    (trendSeries rows gc entity adv camp m s t).sum
      = (((trendFilter rows gc entity adv camp).filter
          (fun r => decide (s ≤ r.date) && decide (r.date ≤ t))).map (metricVal m)).sum := by
  refine ⟨?_, ?_, ?_⟩
  · rw [trendSeries, List.length_map, List.length_range]
    omega
  · intro i hi
    simp only [trendSeries, List.get_eq_getElem, List.getElem_map, List.getElem_range]
  · have hkeys : ((List.range (t - s + 1).toNat).map (fun i : Nat => s + (i : Int))).Nodup := by
      refine List.Nodup.map ?_ (List.nodup_range _)
      intro a b hab
      have hab2 : s + (a : Int) = s + (b : Int) := hab
      omega
    have hcov : ∀ r ∈ (trendFilter rows gc entity adv camp).filter
        (fun r => decide (s ≤ r.date) && decide (r.date ≤ t)),
        r.date ∈ (List.range (t - s + 1).toNat).map (fun i : Nat => s + (i : Int)) := by
      intro r hr
      have hmem := List.mem_filter.1 hr
      have hd : s ≤ r.date ∧ r.date ≤ t := by
        have h2 := hmem.2
        simp only [Bool.and_eq_true, decide_eq_true_eq] at h2
        exact h2
      refine List.mem_map.2 ⟨(r.date - s).toNat, List.mem_range.2 (by omega), ?_⟩
      show s + (((r.date - s).toNat : Nat) : Int) = r.date
      omega
    have hpart := sum_map_filter_partition (fun r : Row => r.date) (metricVal m)
      ((trendFilter rows gc entity adv camp).filter
        (fun r => decide (s ≤ r.date) && decide (r.date ≤ t)))
      ((List.range (t - s + 1).toNat).map (fun i : Nat => s + (i : Int))) hkeys hcov
    rw [trendSeries, ← hpart, List.map_map]
    refine congrArg List.sum (List.map_congr_left ?_)
    intro i hi
    rw [List.mem_range] at hi
    simp only [Function.comp]
    rw [List.filter_filter]
    refine congrArg List.sum (congrArg (List.map (metricVal m)) (List.filter_congr ?_))
    intro r _
    by_cases hr : (r.date == s + (i : Int)) = true
    · have hdate : r.date = s + (i : Int) := beq_iff_eq.1 hr
      have h1 : s ≤ r.date := by omega
      have h2 : r.date ≤ t := by omega
      simp [hr, h1, h2]
    · simp [hr]

/-! ### Empty-table degradation -/

theorem filterRows_nil (adv camp : String) (s e : Int) :
    filterRows [] adv camp s e = [] := by
  simp [filterRows, filterWindow, applyFilters]

theorem calculate_metrics_nil (adv camp : String) (s e : Int) (m : Metric) (gc : GroupCol) :
    calculate_metrics [] adv camp s e m gc = [] := by
  rw [calculate_metrics_def, filterRows_nil]
  rfl

theorem rawTotalQ_nil (adv camp : String) (s e : Int) (m : Metric) :
    rawTotalQ [] adv camp s e m = 0 := by
  rw [rawTotalQ, filterRows_nil]
  rfl

theorem pyInt_zero : pyInt 0 = 0 := by
  simp [pyInt]

theorem select_get_raw_totals_nil (adv camp : String) (s e : Int) (m : Metric) :
    (get_raw_totals [] adv camp s e).select m = 0 := by
  cases m <;> simp [get_raw_totals, RawTotals.select, rawTotalQ_nil, pyInt_zero]

theorem topEntities_nil (n : Nat) : topEntities [] n = [] := by
  simp [topEntities]

theorem maintainedList_nil (n : Nat) : maintainedList [] [] n = [] := by
  rw [maintainedList, topEntities_nil]
  rfl

theorem newList_nil (n : Nat) : newList [] [] n = [] := by
  rw [newList, topEntities_nil]
  rfl

theorem droppedList_nil (n : Nat) : droppedList [] [] n = [] := by
  rw [droppedList, topEntities_nil]
  rfl

theorem buildDomainData_empty_table (adv camp : String) (w1s w1e w2s w2e rs re : Int)
    (m : Metric) (gc : GroupCol) (n : Nat) :
    buildDomainData (calculate_metrics [] adv camp w1s w1e m gc)
      (calculate_metrics [] adv camp w2s w2e m gc) [] gc adv camp m rs re n = [] := by
  rw [buildDomainData, calculate_metrics_nil, calculate_metrics_nil,
    maintainedList_nil, newList_nil, droppedList_nil]
  rfl

theorem pieEntries_empty_table (adv camp : String) (s e : Int) (m m2 : Metric)
    (gc : GroupCol) (n : Nat) :
    pieEntries (calculate_metrics [] adv camp s e m gc) m2 n = [] := by
  rw [calculate_metrics_nil]
  simp [pieEntries]

/-- C8: on the empty table every output degrades: both KPI totals are 0, the
tiered entity list and both pie summaries are empty, and every contribution
data point carries no entity columns. (The orchestrator is a total Lean
function, so no exception is possible.) -/
theorem empty_table_degrades (topN : Nat) (adv camp : String) (d : Int)
    (m : Metric) (analysisType : String) :
    (get_dashboard_data [] topN adv camp d m analysisType).week1Total = 0 ∧
    (get_dashboard_data [] topN adv camp d m analysisType).week2Total = 0 ∧
    (get_dashboard_data [] topN adv camp d m analysisType).domainData = [] ∧
    (get_dashboard_data [] topN adv camp d m analysisType).pieDataWeek1 = [] ∧
    (get_dashboard_data [] topN adv camp d m analysisType).pieDataWeek2 = [] ∧
    (∀ p ∈ (get_dashboard_data [] topN adv camp d m analysisType).contributionData,
      p.2 = ([] : List (String × Int))) := by
  refine ⟨?_, ?_, ?_, ?_, ?_, ?_⟩
  · exact select_get_raw_totals_nil adv camp _ _ m
  · exact select_get_raw_totals_nil adv camp _ _ m
  · exact buildDomainData_empty_table adv camp _ _ _ _ _ _ m (groupColOf analysisType) topN
  · exact pieEntries_empty_table adv camp _ _ m m (groupColOf analysisType) topN
  · exact pieEntries_empty_table adv camp _ _ m m (groupColOf analysisType) topN
  · intro p hp
    have hp2 : p ∈ contribution_data (applyFilters ([] : List Row) adv camp)
        (groupColOf analysisType) m
        (pySortedSet (maintainedList
            (calculate_metrics [] adv camp (get_week_range d 1).1 (get_week_range d 1).2 m
              (groupColOf analysisType))
            (calculate_metrics [] adv camp (get_week_range d 0).1 (get_week_range d 0).2 m
              (groupColOf analysisType)) topN
          ++ newList
            (calculate_metrics [] adv camp (get_week_range d 1).1 (get_week_range d 1).2 m
              (groupColOf analysisType))
            (calculate_metrics [] adv camp (get_week_range d 0).1 (get_week_range d 0).2 m
              (groupColOf analysisType)) topN
          ++ droppedList
            (calculate_metrics [] adv camp (get_week_range d 1).1 (get_week_range d 1).2 m
              (groupColOf analysisType))
            (calculate_metrics [] adv camp (get_week_range d 0).1 (get_week_range d 0).2 m
              (groupColOf analysisType)) topN))
        (get_week_range d 1).1 (get_week_range d 0).2 := hp
    rw [calculate_metrics_nil, calculate_metrics_nil, maintainedList_nil, newList_nil,
      droppedList_nil] at hp2
    rcases List.mem_map.1 hp2 with ⟨i, _, rfl⟩
    rfl

/-! ### Keyword analysis -/

theorem mem_of_mem_applyFilters {rows : List Row} {adv camp : String} {r : Row}
    (h : r ∈ applyFilters rows adv camp) : r ∈ rows := by
  unfold applyFilters at h
  split at h <;> split at h <;>
    first
      | exact List.mem_of_mem_filter (List.mem_of_mem_filter h)
      | exact List.mem_of_mem_filter h
      | exact h

theorem mem_of_mem_filterRows {rows : List Row} {adv camp : String} {s e : Int} {r : Row}
    (h : r ∈ filterRows rows adv camp s e) : r ∈ rows :=
  List.mem_of_mem_filter (mem_of_mem_applyFilters h)

theorem length_calculate_metrics (rows : List Row) (adv camp : String) (s e : Int)
    (m : Metric) (gc : GroupCol) :
    (calculate_metrics rows adv camp s e m gc).length
      = ((filterRows rows adv camp s e).map (groupVal gc)).dedup.length := by
  rw [calculate_metrics_def, length_attachRanks,
    (List.perm_insertionSort (aggGe m) _).length_eq, List.length_map]

theorem dedup_all_eq {l : List String} {c : String} (h : ∀ x ∈ l, x = c) :
    l.dedup = [] ∨ l.dedup = [c] := by
  induction l with
  | nil => exact Or.inl rfl
  | cons a l ih =>
    have ha : a = c := h a (List.mem_cons_self a l)
    have hl : ∀ x ∈ l, x = c := fun x hx => h x (List.mem_cons_of_mem a hx)
    by_cases hm : a ∈ l
    · rw [List.dedup_cons_of_mem hm]
      rcases ih hl with h0 | h1
      · have : a ∈ l.dedup := List.mem_dedup.2 hm
        rw [h0] at this
        exact absurd this (List.not_mem_nil a)
      · exact Or.inr h1
    · rw [List.dedup_cons_of_not_mem hm]
      have hlnil : l = [] := by
        cases l with
        | nil => rfl
        | cons y l2 =>
          have : y = c := hl y (List.mem_cons_self y l2)
          exact absurd (by rw [ha, ← this]; exact List.mem_cons_self y l2) hm
      subst hlnil
      exact Or.inr (by rw [ha]; rfl)

/-- C10: every row of a loaded table has an empty keyword key
(`df['Clean Keyword'] = ''`), `analysisType = 'Keyword'` selects that key,
and therefore every keyword ranking over any slice of loaded data holds at
most one entity: the empty string, at rank 1, aggregating all filtered rows. -/
theorem keyword_single_entity (raw : List RawRecord) (p : Row → Bool)
    (adv camp : String) (s t : Int) (m : Metric) :
    (∀ row ∈ load_data raw, row.cleanKeyword = "") ∧
    groupColOf "Keyword" = GroupCol.keyword ∧
    (calculate_metrics ((load_data raw).filter p) adv camp s t m GroupCol.keyword).length ≤ 1 ∧
    (∀ entry ∈ calculate_metrics ((load_data raw).filter p) adv camp s t m GroupCol.keyword,
      entry.entity = "" ∧ entry.rank = 1 ∧
      entry.conversions = ((filterRows ((load_data raw).filter p) adv camp s t).map
        (fun r => r.conversions)).sum ∧
      entry.clicks = ((filterRows ((load_data raw).filter p) adv camp s t).map
        (fun r => (r.clicks : ℚ))).sum ∧
      entry.impressions = ((filterRows ((load_data raw).filter p) adv camp s t).map
        (fun r => (r.impressions : ℚ))).sum) := by
  have hload : ∀ row ∈ load_data raw, row.cleanKeyword = "" := by
    intro row h
    rcases List.mem_map.1 h with ⟨r, _, rfl⟩
    rfl
  have hkw : ∀ r ∈ filterRows ((load_data raw).filter p) adv camp s t,
      groupVal GroupCol.keyword r = "" := by
    intro r hr
    exact hload r (List.mem_of_mem_filter (mem_of_mem_filterRows hr))
  have hall : ∀ x ∈ (filterRows ((load_data raw).filter p) adv camp s t).map
      (groupVal GroupCol.keyword), x = "" := by
    intro x hx
    rcases List.mem_map.1 hx with ⟨r, hr, rfl⟩
    exact hkw r hr
  refine ⟨hload, rfl, ?_, ?_⟩
  · rw [length_calculate_metrics]
    rcases dedup_all_eq hall with hk | hk <;> rw [hk] <;> simp
  · intro entry hentry
    rw [calculate_metrics_def] at hentry
    rcases dedup_all_eq hall with hk | hk <;> rw [hk] at hentry
    · simp [attachRanks] at hentry
    · have hfull : (filterRows ((load_data raw).filter p) adv camp s t).filter
          (fun r => groupVal GroupCol.keyword r == "")
          = filterRows ((load_data raw).filter p) adv camp s t := by
        refine List.filter_eq_self.2 ?_
        intro r hr
        rw [hkw r hr]
        exact beq_self_eq_true ""
      have hsingle : entry = toEntry (mkAgg (filterRows ((load_data raw).filter p) adv camp s t)
          GroupCol.keyword "") 1 := by
        simpa [attachRanks] using hentry
      subst hsingle
      refine ⟨rfl, rfl, ?_, ?_, ?_⟩ <;>
        simp only [toEntry, mkAgg, hfull]

/-- Four concrete rows over two 7-day windows `[1,7]` and `[8,14]`: with
top-N = 1, `a.com` is `dropped` (week1 rank 1, week2 rank 2) and `b.com` is
`new` (week1 rank 2, week2 rank 1), both present in both weeks' aggregates. -/
def witnessRows : List Row :=
  [ { date := 1, advertiser := "A", campaign := "C", cleanDomain := "a.com",
      cleanKeyword := "", impressions := 100, clicks := 10, conversions := 10 },
    { date := 1, advertiser := "A", campaign := "C", cleanDomain := "b.com",
      cleanKeyword := "", impressions := 50, clicks := 5, conversions := 5 },
    { date := 8, advertiser := "A", campaign := "C", cleanDomain := "b.com",
      cleanKeyword := "", impressions := 100, clicks := 10, conversions := 10 },
    { date := 8, advertiser := "A", campaign := "C", cleanDomain := "a.com",
      cleanKeyword := "", impressions := 50, clicks := 5, conversions := 5 } ]

section
attribute [local semireducible] Rat.add Rat.sub Rat.mul Rat.inv

theorem new_dropped_rank_change_witness :
    (mkNewEntry (calculate_metrics witnessRows "" "" 1 7 Metric.conversions GroupCol.domain)
        (calculate_metrics witnessRows "" "" 8 14 Metric.conversions GroupCol.domain)
        witnessRows GroupCol.domain "" "" Metric.conversions 1 14 "b.com").rankChange
      = some 1 ∧
    (mkDroppedEntry (calculate_metrics witnessRows "" "" 1 7 Metric.conversions GroupCol.domain)
        (calculate_metrics witnessRows "" "" 8 14 Metric.conversions GroupCol.domain)
        witnessRows GroupCol.domain "" "" Metric.conversions 1 14 "a.com").rankChange
      = some (-1) := by
  have h := new_dropped_rank_change witnessRows "" "" 1 7 8 14 Metric.conversions
    GroupCol.domain witnessRows 1 14 1
  exact ⟨(h.1 "b.com" (by decide)).trans (by decide),
    (h.2 "a.com" (by decide)).trans (by decide)⟩

theorem maintained_change_witness :
    (mkMaintainedEntry (calculate_metrics witnessRows "" "" 1 7 Metric.conversions GroupCol.domain)
        (calculate_metrics witnessRows "" "" 8 14 Metric.conversions GroupCol.domain)
        witnessRows GroupCol.domain "" "" Metric.conversions 1 14 "a.com").change
      = some (-50) := by
  have h := maintained_change_null_iff_zero witnessRows "" "" 1 7 8 14 Metric.conversions
    GroupCol.domain witnessRows 1 14 2 "a.com" (by decide) (by decide)
  exact (h.2 (by decide)).trans (by decide)

theorem trend_series_dense_witness :
    (trendSeries witnessRows GroupCol.domain "a.com" "" "" Metric.conversions 1 14).length = 14 ∧
    (trendSeries witnessRows GroupCol.domain "a.com" "" "" Metric.conversions 1 14).sum = 15 := by
  have h := trend_series_dense witnessRows GroupCol.domain "a.com" "" ""
    Metric.conversions 1 14 (by decide)
  exact ⟨h.1.trans (by decide), h.2.2.trans (by decide)⟩

end

end DomainTool
